import Mathlib

/-!
Verification of the voice-detection core (audio_processor.py, voice_detector.py).

The Python code is shallowly embedded over exact rationals (feature values,
thresholds, weights) and, for the spectral claims, over the reals.  Machine
floats are modelled by exact arithmetic; the NaN produced by scipy on a
zero-variance signal is modelled by Option.none.
-/

/-- The per-language phoneme weight table of VoiceDetector.language_models
(voice_detector.py lines 31-37), together with the default 1.0 used by
dict.get for unknown codes (line 297). -/
def phonemeWeight (language : String) : ℚ :=
  if language = "tamil" then 1.1
  else if language = "english" then 1.0
  else if language = "hindi" then 1.05
  else if language = "malayalam" then 1.1
  else if language = "telugu" then 1.08
  else 1.0

/-- The 13-key feature dictionary built by VoiceDetector._extract_features
(voice_detector.py lines 88-119).  Feature values are modelled as exact
rationals. -/
structure FeatureVector where
  spectral_flatness : ℚ
  spectral_centroid : ℚ
  spectral_rolloff : ℚ
  harmonic_ratio : ℚ
  zero_crossing_rate : ℚ
  zcr_std : ℚ
  jitter : ℚ
  shimmer : ℚ
  mfcc_variance : ℚ
  energy_entropy : ℚ
  dynamic_range : ℚ
  signal_kurtosis : ℚ
  signal_skewness : ℚ
deriving DecidableEq

/-- The ai_score accumulator of VoiceDetector._calculate_ai_probability
(voice_detector.py lines 293-332): each of the seven threshold comparisons
adds its weight when it holds, the zcr_std rule weight being multiplied by
the language phoneme weight. -/
def aiScoreOf (f : FeatureVector) (language : String) : ℚ :=
  (if f.spectral_flatness > 0.15 then 2.0 else 0) +
  (if f.harmonic_ratio > 0.75 then 1.5 else 0) +
  (if f.zcr_std < 0.02 then 1.8 * phonemeWeight language else 0) +
  (if f.jitter < 0.005 then 2.2 else 0) +
  (if f.shimmer < 0.05 then 2.0 else 0) +
  (if f.mfcc_variance < 2.5 then 1.5 else 0) +
  (if f.energy_entropy < 3.5 then 1.0 else 0)

/-- The total_weight accumulator of _calculate_ai_probability: every rule
weight is added unconditionally (voice_detector.py lines 302-332). -/
def totalWeightOf (language : String) : ℚ :=
  2.0 + 1.5 + 1.8 * phonemeWeight language + 2.2 + 2.0 + 1.5 + 1.0

/-- VoiceDetector._calculate_ai_probability (voice_detector.py lines
288-337): probability = ai_score / total_weight if total_weight > 0 else
0.5. -/
def calculateAiProbability (f : FeatureVector) (language : String) : ℚ :=
  if totalWeightOf language > 0 then aiScoreOf f language / totalWeightOf language
  else 0.5

/-- Classification derivation of VoiceDetector.detect, line 67:
ai_generated if ai_probability > 0.5 else human_generated. -/
def classificationOf (f : FeatureVector) (language : String) : String :=
  if calculateAiProbability f language > 0.5 then "ai_generated"
  else "human_generated"

/-- Confidence derivation of VoiceDetector.detect, line 68:
the probability when classified ai_generated, its complement otherwise. -/
def confidenceOf (f : FeatureVector) (language : String) : ℚ :=
  if classificationOf f language = "ai_generated" then calculateAiProbability f language
  else 1 - calculateAiProbability f language

/-- One row of the scoring rule table as the spec describes it
(spec section 4.3): feature accessor, comparison direction, threshold,
weight, and whether the weight is language sensitive. -/
structure ScoringRule where
  feature : FeatureVector → ℚ
  aiWhenGreater : Bool
  threshold : ℚ
  weight : ℚ
  languageWeighted : Bool

/-- The seven-rule table of spec section 4.3, in the order the code
iterates it. -/
def scoringRules : List ScoringRule :=
  [⟨fun f => f.spectral_flatness, true, 0.15, 2.0, false⟩,
   ⟨fun f => f.harmonic_ratio, true, 0.75, 1.5, false⟩,
   ⟨fun f => f.zcr_std, false, 0.02, 1.8, true⟩,
   ⟨fun f => f.jitter, false, 0.005, 2.2, false⟩,
   ⟨fun f => f.shimmer, false, 0.05, 2.0, false⟩,
   ⟨fun f => f.mfcc_variance, false, 2.5, 1.5, false⟩,
   ⟨fun f => f.energy_entropy, false, 3.5, 1.0, false⟩]

/-- Whether a rule fires on a feature vector: the comparison in the
AI-leaning direction. -/
def ruleFires (r : ScoringRule) (f : FeatureVector) : Bool :=
  if r.aiWhenGreater then decide (r.threshold < r.feature f)
  else decide (r.feature f < r.threshold)

/-- Effective weight of a rule: multiplied by the language multiplier when
the rule is language weighted. -/
def ruleWeight (r : ScoringRule) (lw : ℚ) : ℚ :=
  if r.languageWeighted then r.weight * lw else r.weight

/-- The Probability Scorer as the spec words it (section 4.3): iterate the
rule table accumulating (ai_score, total_weight), then divide, with the
defensive 0.5 fallback when total_weight is zero. -/
def specAiProbability (f : FeatureVector) (language : String) : ℚ :=
  let lw := phonemeWeight language
  let acc := scoringRules.foldl
    (fun (acc : ℚ × ℚ) r =>
      (if ruleFires r f then acc.1 + ruleWeight r lw else acc.1, acc.2 + ruleWeight r lw))
    (0, 0)
  if acc.2 = 0 then 0.5 else acc.1 / acc.2

theorem one_le_phonemeWeight (language : String) : 1 ≤ phonemeWeight language := by
  unfold phonemeWeight
  split_ifs <;> norm_num

theorem totalWeightOf_pos (language : String) : 0 < totalWeightOf language := by
  have h := one_le_phonemeWeight language
  unfold totalWeightOf
  nlinarith

theorem ite_weight_nonneg (c : Prop) [Decidable c] (w : ℚ) (hw : 0 ≤ w) :
    0 ≤ if c then w else 0 := by
  split <;> simp [hw]

theorem ite_weight_le (c : Prop) [Decidable c] (w : ℚ) (hw : 0 ≤ w) :
    (if c then w else 0) ≤ w := by
  split <;> simp [hw]

theorem aiScoreOf_nonneg (f : FeatureVector) (language : String) :
    0 ≤ aiScoreOf f language := by
  have h := one_le_phonemeWeight language
  have hlw : (0:ℚ) ≤ 1.8 * phonemeWeight language := by nlinarith
  unfold aiScoreOf
  have h1 := ite_weight_nonneg (f.spectral_flatness > 0.15) (2.0 : ℚ) (by norm_num)
  have h2 := ite_weight_nonneg (f.harmonic_ratio > 0.75) (1.5 : ℚ) (by norm_num)
  have h3 := ite_weight_nonneg (f.zcr_std < 0.02) (1.8 * phonemeWeight language) hlw
  have h4 := ite_weight_nonneg (f.jitter < 0.005) (2.2 : ℚ) (by norm_num)
  have h5 := ite_weight_nonneg (f.shimmer < 0.05) (2.0 : ℚ) (by norm_num)
  have h6 := ite_weight_nonneg (f.mfcc_variance < 2.5) (1.5 : ℚ) (by norm_num)
  have h7 := ite_weight_nonneg (f.energy_entropy < 3.5) (1.0 : ℚ) (by norm_num)
  linarith

theorem aiScoreOf_le_totalWeight (f : FeatureVector) (language : String) :
    aiScoreOf f language ≤ totalWeightOf language := by
  have h := one_le_phonemeWeight language
  have hlw : (0:ℚ) ≤ 1.8 * phonemeWeight language := by nlinarith
  unfold aiScoreOf totalWeightOf
  have h1 := ite_weight_le (f.spectral_flatness > 0.15) (2.0 : ℚ) (by norm_num)
  have h2 := ite_weight_le (f.harmonic_ratio > 0.75) (1.5 : ℚ) (by norm_num)
  have h3 := ite_weight_le (f.zcr_std < 0.02) (1.8 * phonemeWeight language) hlw
  have h4 := ite_weight_le (f.jitter < 0.005) (2.2 : ℚ) (by norm_num)
  have h5 := ite_weight_le (f.shimmer < 0.05) (2.0 : ℚ) (by norm_num)
  have h6 := ite_weight_le (f.mfcc_variance < 2.5) (1.5 : ℚ) (by norm_num)
  have h7 := ite_weight_le (f.energy_entropy < 3.5) (1.0 : ℚ) (by norm_num)
  linarith

theorem calculateAiProbability_nonneg (f : FeatureVector) (language : String) :
    0 ≤ calculateAiProbability f language := by
  unfold calculateAiProbability
  rw [if_pos (totalWeightOf_pos language)]
  exact div_nonneg (aiScoreOf_nonneg f language) (totalWeightOf_pos language).le

theorem calculateAiProbability_le_one (f : FeatureVector) (language : String) :
    calculateAiProbability f language ≤ 1 := by
  unfold calculateAiProbability
  rw [if_pos (totalWeightOf_pos language)]
  rw [div_le_one (totalWeightOf_pos language)]
  exact aiScoreOf_le_totalWeight f language

set_option maxHeartbeats 3200000 in
/-- C1: for every FeatureVector and language code the code scorer
(_calculate_ai_probability) computes exactly the spec rule-table
iteration: the seven fixed rules with their weights, thresholds and
comparison directions, the language multiplier on the zcr_std rule, and
probability = ai_score / total_weight with the 0.5 zero-weight fallback. -/
theorem claim_C1_scorer_matches_rule_table (f : FeatureVector) (language : String) :
    calculateAiProbability f language = specAiProbability f language := by
  have hpos := totalWeightOf_pos language
  have h := one_le_phonemeWeight language
  unfold calculateAiProbability specAiProbability aiScoreOf
  simp only [scoringRules, List.foldl_cons, List.foldl_nil, ruleFires, ruleWeight,
    decide_eq_true_eq, Bool.false_eq_true, if_true, if_false, ite_true, ite_false,
    gt_iff_lt]
  have ht : totalWeightOf language
      = (0:ℚ) + 2.0 + 1.5 + 1.8 * phonemeWeight language + 2.2 + 2.0 + 1.5 + 1.0 := by
    unfold totalWeightOf; ring
  rw [← ht]
  rw [if_pos hpos, if_neg (ne_of_gt hpos)]
  congr 1
  split_ifs <;> ring

/-- A feature vector on the AI-leaning side of all seven scoring
comparisons. -/
def fvAllAi : FeatureVector :=
  ⟨0.2, 0, 0, 0.8, 0, 0.01, 0.001, 0.01, 1.0, 3.0, 0, 0, 0⟩

/-- A feature vector on the human-leaning side of all seven scoring
comparisons. -/
def fvAllHuman : FeatureVector :=
  ⟨0.1, 0, 0, 0.5, 0, 0.05, 0.01, 0.1, 3.0, 4.0, 0, 0, 0⟩

/-- C3: a FeatureVector satisfying all seven AI-leaning comparisons scores
probability 1.0 and is classified ai_generated; one satisfying none scores
strictly below 0.5 and is classified human_generated. -/
theorem claim_C3_extreme_feature_vectors (f : FeatureVector) (language : String) :
    ((0.15 < f.spectral_flatness ∧ 0.75 < f.harmonic_ratio ∧ f.zcr_std < 0.02 ∧
      f.jitter < 0.005 ∧ f.shimmer < 0.05 ∧ f.mfcc_variance < 2.5 ∧
      f.energy_entropy < 3.5) →
      calculateAiProbability f language = 1 ∧
      classificationOf f language = "ai_generated")
    ∧ ((f.spectral_flatness ≤ 0.15 ∧ f.harmonic_ratio ≤ 0.75 ∧ 0.02 ≤ f.zcr_std ∧
      0.005 ≤ f.jitter ∧ 0.05 ≤ f.shimmer ∧ 2.5 ≤ f.mfcc_variance ∧
      3.5 ≤ f.energy_entropy) →
      calculateAiProbability f language < 0.5 ∧
      classificationOf f language = "human_generated") := by
  have hpos := totalWeightOf_pos language
  constructor
  · rintro ⟨h1, h2, h3, h4, h5, h6, h7⟩
    have hs : aiScoreOf f language = totalWeightOf language := by
      unfold aiScoreOf totalWeightOf
      rw [if_pos h1, if_pos h2, if_pos h3, if_pos h4, if_pos h5, if_pos h6, if_pos h7]
    have hp : calculateAiProbability f language = 1 := by
      unfold calculateAiProbability
      rw [if_pos hpos, hs, div_self (ne_of_gt hpos)]
    refine ⟨hp, ?_⟩
    unfold classificationOf
    rw [hp, if_pos (by norm_num)]
  · rintro ⟨h1, h2, h3, h4, h5, h6, h7⟩
    have hs : aiScoreOf f language = 0 := by
      unfold aiScoreOf
      rw [if_neg (not_lt.mpr h1), if_neg (not_lt.mpr h2), if_neg (not_lt.mpr h3),
        if_neg (not_lt.mpr h4), if_neg (not_lt.mpr h5), if_neg (not_lt.mpr h6),
        if_neg (not_lt.mpr h7)]
      norm_num
    have hp : calculateAiProbability f language = 0 := by
      unfold calculateAiProbability
      rw [if_pos hpos, hs, zero_div]
    refine ⟨by rw [hp]; norm_num, ?_⟩
    unfold classificationOf
    rw [hp, if_neg (by norm_num)]

/-- Witness for C3 at concrete feature vectors: fvAllAi satisfies every
AI-leaning comparison and scores exactly 1; fvAllHuman satisfies none and
scores below 0.5. -/
theorem claim_C3_witness :
    (calculateAiProbability fvAllAi "english" = 1 ∧
      classificationOf fvAllAi "english" = "ai_generated")
    ∧ (calculateAiProbability fvAllHuman "english" < 0.5 ∧
      classificationOf fvAllHuman "english" = "human_generated") :=
  ⟨(claim_C3_extreme_feature_vectors fvAllAi "english").1 (by norm_num [fvAllAi]),
   (claim_C3_extreme_feature_vectors fvAllHuman "english").2 (by norm_num [fvAllHuman])⟩

/-- C4: the classification is ai_generated exactly when the probability
exceeds 0.5, human_generated otherwise, and the confidence computed at
voice_detector.py line 68 equals max(probability, 1 - probability), hence
lies in [0.5, 1]. -/
theorem claim_C4_classification_confidence (f : FeatureVector) (language : String) :
    (classificationOf f language = "ai_generated" ↔
      0.5 < calculateAiProbability f language)
    ∧ (classificationOf f language = "human_generated" ↔
      calculateAiProbability f language ≤ 0.5)
    ∧ confidenceOf f language
      = max (calculateAiProbability f language) (1 - calculateAiProbability f language)
    ∧ 0.5 ≤ confidenceOf f language ∧ confidenceOf f language ≤ 1 := by
  have h0 := calculateAiProbability_nonneg f language
  have h1 := calculateAiProbability_le_one f language
  by_cases hc : (0.5:ℚ) < calculateAiProbability f language
  · have hcl : classificationOf f language = "ai_generated" := by
      unfold classificationOf; rw [if_pos hc]
    have hconf : confidenceOf f language = calculateAiProbability f language := by
      unfold confidenceOf; rw [hcl, if_pos rfl]
    have hmax : max (calculateAiProbability f language)
        (1 - calculateAiProbability f language) = calculateAiProbability f language :=
      max_eq_left (by linarith)
    refine ⟨⟨fun _ => hc, fun _ => hcl⟩, ⟨?_, ?_⟩, ?_, ?_, ?_⟩
    · intro hh; rw [hcl] at hh; exact absurd hh (by decide)
    · intro hle; exact absurd hle (not_le.mpr hc)
    · rw [hconf, hmax]
    · rw [hconf]; linarith
    · rw [hconf]; linarith
  · push_neg at hc
    have hcl : classificationOf f language = "human_generated" := by
      unfold classificationOf; rw [if_neg (not_lt.mpr hc)]
    have hconf : confidenceOf f language = 1 - calculateAiProbability f language := by
      unfold confidenceOf; rw [hcl, if_neg (by decide)]
    have hmax : max (calculateAiProbability f language)
        (1 - calculateAiProbability f language)
        = 1 - calculateAiProbability f language :=
      max_eq_right (by linarith)
    refine ⟨⟨?_, ?_⟩, ⟨fun _ => hc, fun _ => hcl⟩, ?_, ?_, ?_⟩
    · intro hh; rw [hcl] at hh; exact absurd hh (by decide)
    · intro hgt; exact absurd hgt (not_lt.mpr hc)
    · rw [hconf, hmax]
    · rw [hconf]; linarith
    · rw [hconf]; linarith

/-- VoiceDetector._get_ai_indicators (voice_detector.py lines 377-396):
five threshold checks, each appending one label. -/
def getAiIndicators (f : FeatureVector) : List String :=
  (if f.spectral_flatness > 0.15 then ["High spectral uniformity"] else []) ++
  (if f.jitter < 0.005 then ["Low pitch jitter"] else []) ++
  (if f.shimmer < 0.05 then ["Low amplitude shimmer"] else []) ++
  (if f.zcr_std < 0.02 then ["Consistent zero-crossing rate"] else []) ++
  (if f.harmonic_ratio > 0.75 then ["Strong harmonic structure"] else [])

/-- VoiceDetector._get_human_indicators (voice_detector.py lines 398-414):
four threshold checks, each appending one label. -/
def getHumanIndicators (f : FeatureVector) : List String :=
  (if f.jitter > 0.005 then ["Natural pitch variation"] else []) ++
  (if f.shimmer > 0.05 then ["Natural amplitude variation"] else []) ++
  (if f.zcr_std > 0.02 then ["Variable articulation"] else []) ++
  (if f.energy_entropy > 3.5 then ["Dynamic energy distribution"] else [])

/-- The five labels _get_ai_indicators can emit. -/
def aiIndicatorLabels : List String :=
  ["High spectral uniformity", "Low pitch jitter", "Low amplitude shimmer",
   "Consistent zero-crossing rate", "Strong harmonic structure"]

/-- The four labels _get_human_indicators can emit. -/
def humanIndicatorLabels : List String :=
  ["Natural pitch variation", "Natural amplitude variation",
   "Variable articulation", "Dynamic energy distribution"]

/-- A feature vector whose only AI-leaning comparison is
mfcc_variance < 2.5; every other comparison is on the human side. -/
def fvOnlyMfcc : FeatureVector :=
  ⟨0.1, 0, 0, 0.5, 0, 0.05, 0.01, 0.1, 1.0, 4.0, 0, 0, 0⟩

theorem mem_ite_singleton (c : Prop) [Decidable c] (a b : String) :
    (a ∈ if c then [b] else []) ↔ (c ∧ a = b) := by
  split_ifs with h <;> simp [h]

/-- C7 is refuted: on fvOnlyMfcc the AI-leaning comparison
mfcc_variance < 2.5 holds, yet _get_ai_indicators emits no label at all,
so not every one of the seven scorer comparisons contributes an
indicator. -/
theorem claim_C7_counterexample :
    getAiIndicators fvOnlyMfcc = [] ∧ fvOnlyMfcc.mfcc_variance < 2.5 := by
  constructor
  · norm_num [getAiIndicators, fvOnlyMfcc]
  · norm_num [fvOnlyMfcc]

/-- C7 amended: the indicator lists are keyed off only five of the seven
scorer comparisons (spectral_flatness, jitter, shimmer, zcr_std,
harmonic_ratio) on the AI side, and off the strict reversals of three of
them (jitter, shimmer, zcr_std) plus the purely-human check
energy_entropy > 3.5 on the human side; mfcc_variance and the
energy_entropy < 3.5 comparison contribute no AI indicator. -/
theorem claim_C7_amended (f : FeatureVector) :
    ("High spectral uniformity" ∈ getAiIndicators f ↔ 0.15 < f.spectral_flatness)
    ∧ ("Low pitch jitter" ∈ getAiIndicators f ↔ f.jitter < 0.005)
    ∧ ("Low amplitude shimmer" ∈ getAiIndicators f ↔ f.shimmer < 0.05)
    ∧ ("Consistent zero-crossing rate" ∈ getAiIndicators f ↔ f.zcr_std < 0.02)
    ∧ ("Strong harmonic structure" ∈ getAiIndicators f ↔ 0.75 < f.harmonic_ratio)
    ∧ ("Natural pitch variation" ∈ getHumanIndicators f ↔ 0.005 < f.jitter)
    ∧ ("Natural amplitude variation" ∈ getHumanIndicators f ↔ 0.05 < f.shimmer)
    ∧ ("Variable articulation" ∈ getHumanIndicators f ↔ 0.02 < f.zcr_std)
    ∧ ("Dynamic energy distribution" ∈ getHumanIndicators f ↔ 3.5 < f.energy_entropy)
    ∧ (getAiIndicators f).all (fun s => aiIndicatorLabels.contains s) = true
    ∧ (getHumanIndicators f).all (fun s => humanIndicatorLabels.contains s) = true := by
  refine ⟨?_, ?_, ?_, ?_, ?_, ?_, ?_, ?_, ?_, ?_, ?_⟩ <;>
    simp [getAiIndicators, getHumanIndicators, mem_ite_singleton, aiIndicatorLabels,
      humanIndicatorLabels, gt_iff_lt]

/-- Arithmetic mean, sum divided by length, as np.mean computes on a
nonempty array (the empty case is never reached below the guards). -/
def listMeanQ (l : List ℚ) : ℚ := l.sum / l.length

/-- np.sign on one sample. -/
def sgn (v : ℚ) : ℚ := if 0 < v then 1 else if v < 0 then -1 else 0

/-- VoiceDetector._calculate_zero_crossing_rate (voice_detector.py lines
182-186): sum of absolute differences of consecutive signs, halved, over
the sample count. -/
def calculateZeroCrossingRate (x : List ℚ) : ℚ :=
  ((List.zipWith (fun a b => |b - a|) (x.map sgn) (x.map sgn).tail).sum / 2) / x.length

/-- The start offsets produced by the Python loop
range(0, len(audio_data) - frame_length, hop_length) with frame_length
1024 and hop 512: the multiples of 512 strictly below n - 1024. -/
def frameStarts (n : ℕ) : List ℕ :=
  (List.range (n - 1024)).filter (fun i => i % 512 == 0)

/-- The per-frame ZCR list built by _calculate_zcr_std (voice_detector.py
lines 196-200). -/
def zcrValues (x : List ℚ) : List ℚ :=
  (frameStarts x.length).map (fun i => calculateZeroCrossingRate ((x.drop i).take 1024))

/-- The square of np.std: mean squared deviation from the mean.  np.std
itself is the square root of this; working with the square keeps the
embedding in exact rationals, and std = 0 iff this is 0. -/
def listVarQ (l : List ℚ) : ℚ := listMeanQ (l.map (fun v => (v - listMeanQ l) ^ 2))

/-- VoiceDetector._calculate_zcr_std (voice_detector.py lines 188-202),
represented by its square: np.std of the frame ZCR values when the list
is nonempty, the 0.0 fallback otherwise. -/
def calculateZcrStdSq (x : List ℚ) : ℚ :=
  if zcrValues x = [] then 0 else listVarQ (zcrValues x)

/-- Frame starts as claim C6 words them: every full sliding frame of 1024
samples with hop 512, i.e. multiples of 512 with i + 1024 ≤ n. -/
def specFrameStarts (n : ℕ) : List ℕ :=
  (List.range n).filter (fun i => i % 512 == 0 && decide (i + 1024 ≤ n))

/-- zcr_std as claim C6 words it (squared, like calculateZcrStdSq). -/
def specZcrStdSq (x : List ℚ) : ℚ :=
  let vals := (specFrameStarts x.length).map
    (fun i => calculateZeroCrossingRate ((x.drop i).take 1024))
  if vals = [] then 0 else listVarQ vals

/-- Frame starts as the amended claim words them: multiples of 512 with
i + 1024 strictly below n, excluding the frame ending exactly at the
signal end. -/
def strictSpecFrameStarts (n : ℕ) : List ℕ :=
  (List.range n).filter (fun i => i % 512 == 0 && decide (i + 1024 < n))

/-- zcr_std as the amended claim words it (squared). -/
def strictSpecZcrStdSq (x : List ℚ) : ℚ :=
  let vals := (strictSpecFrameStarts x.length).map
    (fun i => calculateZeroCrossingRate ((x.drop i).take 1024))
  if vals = [] then 0 else listVarQ vals

theorem filter_range_and_lt (p : ℕ → Bool) (m n : ℕ) (h : m ≤ n) :
    (List.range n).filter (fun i => p i && decide (i < m)) = (List.range m).filter p := by
  obtain ⟨k, rfl⟩ : ∃ k, n = m + k := ⟨n - m, by omega⟩
  rw [List.range_add, List.filter_append]
  have h1 : (List.range m).filter (fun i => p i && decide (i < m))
      = (List.range m).filter p := by
    apply List.filter_congr
    intro a ha
    have haa : a < m := List.mem_range.mp ha
    simp [haa]
  have h2 : ((List.range k).map (m + ·)).filter (fun i => p i && decide (i < m))
      = [] := by
    rw [List.filter_map, List.map_eq_nil_iff, List.filter_eq_nil_iff]
    intro a _
    simp
  rw [h1, h2, List.append_nil]

theorem frameStarts_eq_strict (n : ℕ) : frameStarts n = strictSpecFrameStarts n := by
  unfold frameStarts strictSpecFrameStarts
  rw [← filter_range_and_lt (fun i => i % 512 == 0) (n - 1024) n (by omega)]
  apply List.filter_congr
  intro a ha
  have haa : a < n := List.mem_range.mp ha
  have hd : decide (a < n - 1024) = decide (a + 1024 < n) :=
    decide_eq_decide.mpr (by omega)
  rw [hd]

theorem frameStarts_eq_nil_iff (n : ℕ) : frameStarts n = [] ↔ n ≤ 1024 := by
  unfold frameStarts
  constructor
  · intro h
    by_contra hn
    push_neg at hn
    have h0 : (0:ℕ) ∈ (List.range (n - 1024)).filter (fun i => i % 512 == 0) := by
      rw [List.mem_filter]
      exact ⟨List.mem_range.mpr (by omega), by norm_num⟩
    rw [h] at h0
    exact absurd h0 (List.not_mem_nil 0)
  · intro h
    have h0 : n - 1024 = 0 := by omega
    rw [h0]
    rfl

/-- C6 amended: zcr_std is the standard deviation of per-frame
zero-crossing rates over the 1024-sample, hop-512 frames whose start lies
strictly below len - 1024 (the frame ending exactly at the signal end is
excluded), and the 0.0 fallback is taken exactly when no such frame
exists, i.e. when len ≤ 1024. -/
theorem claim_C6_amended (x : List ℚ) :
    calculateZcrStdSq x = strictSpecZcrStdSq x
    ∧ (zcrValues x = [] ↔ x.length ≤ 1024) := by
  constructor
  · unfold calculateZcrStdSq strictSpecZcrStdSq zcrValues
    rw [frameStarts_eq_strict]
  · unfold zcrValues
    rw [List.map_eq_nil_iff]
    exact frameStarts_eq_nil_iff x.length

/-- zipWith over two replicates of the same constant collapses to a
replicate. -/
theorem zipWith_replicate_replicate (f : ℚ → ℚ → ℚ) (a b : ℚ) (n m : ℕ) :
    List.zipWith f (List.replicate n a) (List.replicate m b)
      = List.replicate (min n m) (f a b) := by
  induction n generalizing m with
  | zero => simp
  | succ k ih =>
    cases m with
    | zero => simp
    | succ j =>
      simp [List.replicate_succ, ih j, Nat.succ_min_succ]

/-- A constant signal has zero-crossing rate 0. -/
theorem zcr_replicate (n : ℕ) (c : ℚ) :
    calculateZeroCrossingRate (List.replicate n c) = 0 := by
  unfold calculateZeroCrossingRate
  rw [List.map_replicate, List.tail_replicate, zipWith_replicate_replicate]
  simp

/-- The sign-difference list of a step signal: n copies of a followed by
m copies of b, with one jump of size the absolute difference. -/
theorem zipWith_absdiff_rep_append (a b : ℚ) (m : ℕ) (hm : 1 ≤ m) :
    ∀ n, 1 ≤ n →
    List.zipWith (fun x y => |y - x|) (List.replicate n a ++ List.replicate m b)
      (List.replicate n a ++ List.replicate m b).tail
      = List.replicate (n - 1) 0 ++ (|b - a| :: List.replicate (m - 1) 0) := by
  intro n
  induction n with
  | zero => omega
  | succ k ih =>
    intro _
    cases k with
    | zero =>
      obtain ⟨j, rfl⟩ : ∃ j, m = j + 1 := ⟨m - 1, by omega⟩
      have h1 : List.replicate 1 a ++ List.replicate (j + 1) b
          = a :: b :: List.replicate j b := by
        simp [List.replicate_succ]
      rw [h1, List.tail_cons, List.zipWith_cons_cons]
      have h2 : (b :: List.replicate j b) = List.replicate (j + 1) b := by
        rw [List.replicate_succ]
      rw [h2, zipWith_replicate_replicate]
      have h3 : min (j + 1) j = j := by omega
      rw [h3]
      simp
    | succ i =>
      have step : List.replicate (i + 1 + 1) a ++ List.replicate m b
          = a :: (List.replicate (i + 1) a ++ List.replicate m b) := by
        rw [List.replicate_succ, List.cons_append]
      have hT : List.replicate (i + 1) a ++ List.replicate m b
          = a :: (List.replicate i a ++ List.replicate m b) := by
        rw [List.replicate_succ, List.cons_append]
      have ih2 := ih (by omega)
      rw [step, List.tail_cons]
      rw [hT, List.zipWith_cons_cons]
      rw [hT, List.tail_cons] at ih2
      rw [ih2]
      simp [List.replicate_succ]

set_option maxRecDepth 40000 in
/-- C6 is refuted twice over: on a 1536-sample signal the code drops the
full frame starting at offset 512 (std over the code frames differs from
std over every full frame), and on a 1024-sample signal the code returns
the 0.0 fallback although the signal contains one full frame. -/
theorem claim_C6_counterexample :
    calculateZcrStdSq (List.replicate 512 (1:ℚ) ++ List.replicate 1024 (-1:ℚ))
      ≠ specZcrStdSq (List.replicate 512 (1:ℚ) ++ List.replicate 1024 (-1:ℚ))
    ∧ (calculateZcrStdSq (List.replicate 1024 (1:ℚ)) = 0
      ∧ ¬ (List.replicate 1024 (1:ℚ)).length < 1024) := by
  have hlen : (List.replicate 512 (1:ℚ) ++ List.replicate 1024 (-1:ℚ)).length = 1536 := by
    rw [List.length_append, List.length_replicate, List.length_replicate]
  have hfs : frameStarts 1536 = [0] := by decide
  have hsfs : specFrameStarts 1536 = [0, 512] := by decide
  have hfs1024 : frameStarts 1024 = [] := by decide
  have hframe0 : (List.replicate 512 (1:ℚ) ++ List.replicate 1024 (-1:ℚ)).take 1024
      = List.replicate 512 (1:ℚ) ++ List.replicate 512 (-1:ℚ) := by
    rw [List.take_append_eq_append_take, List.take_replicate, List.take_replicate]
    norm_num [Nat.min_def]
  have hframe512 : ((List.replicate 512 (1:ℚ) ++ List.replicate 1024 (-1:ℚ)).drop 512).take 1024
      = List.replicate 1024 (-1:ℚ) := by
    rw [List.drop_append_eq_append_drop, List.drop_replicate, List.drop_replicate]
    norm_num [List.take_replicate, Nat.min_def]
  have hsgn1 : sgn 1 = 1 := by norm_num [sgn]
  have hsgn2 : sgn (-1) = -1 := by norm_num [sgn]
  have hzcr0 : calculateZeroCrossingRate
      (List.replicate 512 (1:ℚ) ++ List.replicate 512 (-1:ℚ)) = 1 / 1024 := by
    unfold calculateZeroCrossingRate
    rw [List.map_append, List.map_replicate, List.map_replicate, hsgn1, hsgn2]
    rw [zipWith_absdiff_rep_append (1:ℚ) (-1:ℚ) 512 (by norm_num) 512 (by norm_num)]
    rw [List.sum_append, List.sum_cons, List.sum_replicate]
    rw [List.length_append, List.length_replicate, List.length_replicate]
    norm_num
  have hzcrv : zcrValues (List.replicate 512 (1:ℚ) ++ List.replicate 1024 (-1:ℚ))
      = [1 / 1024] := by
    unfold zcrValues
    rw [hlen, hfs]
    simp only [List.map_cons, List.map_nil, List.drop_zero]
    rw [hframe0, hzcr0]
  have hcode : calculateZcrStdSq (List.replicate 512 (1:ℚ) ++ List.replicate 1024 (-1:ℚ))
      = 0 := by
    unfold calculateZcrStdSq
    rw [hzcrv]
    norm_num [listVarQ, listMeanQ]
  have hspec : specZcrStdSq (List.replicate 512 (1:ℚ) ++ List.replicate 1024 (-1:ℚ))
      = 1 / 4194304 := by
    unfold specZcrStdSq
    rw [hlen, hsfs]
    simp only [List.map_cons, List.map_nil, List.drop_zero]
    rw [hframe0, hzcr0, hframe512, zcr_replicate]
    rw [if_neg (by simp)]
    norm_num [listVarQ, listMeanQ]
  refine ⟨by rw [hcode, hspec]; norm_num, ?_, ?_⟩
  · unfold calculateZcrStdSq zcrValues
    rw [List.length_replicate, hfs1024]
    simp
  · rw [List.length_replicate]
    omega

/-- The k-th central moment of a signal, mean of (v - mean)^k, as
scipy.stats computes the biased moments m2 and m4. -/
def centralMoment (x : List ℚ) (k : ℕ) : ℚ :=
  listMeanQ (x.map (fun v => (v - listMeanQ x) ^ k))

/-- scipy.stats.kurtosis with its defaults (fisher=True, bias=True), used
at voice_detector.py line 116: m4 / m2^2 - 3.  When the second central
moment vanishes (a constant signal) scipy evaluates 0/0 and returns NaN;
that non-finite outcome is modelled as none. -/
def signalKurtosis (x : List ℚ) : Option ℚ :=
  if centralMoment x 2 = 0 then none
  else some (centralMoment x 4 / centralMoment x 2 ^ 2 - 3)

/-- C2 is violated by the code: on a well-formed half-second silent clip
(8000 zero samples at 16000 Hz) the signal_kurtosis feature is NaN
(modelled: none), not a finite float, contradicting the requirement that
every value of the FeatureVector be finite. -/
theorem claim_C2_kurtosis_nan_on_silence :
    signalKurtosis (List.replicate 8000 (0:ℚ)) = none
    ∧ (List.replicate 8000 (0:ℚ)).length = 8000 := by
  constructor
  · have hmean : listMeanQ (List.replicate 8000 (0:ℚ)) = 0 := by
      unfold listMeanQ
      rw [List.sum_replicate, smul_zero, zero_div]
    have hm2 : centralMoment (List.replicate 8000 (0:ℚ)) 2 = 0 := by
      unfold centralMoment
      rw [hmean, List.map_replicate]
      norm_num [listMeanQ, List.sum_replicate]
    unfold signalKurtosis
    rw [if_pos hm2]
  · rw [List.length_replicate]

/-- AudioProcessor._apply_preemphasis (audio_processor.py lines 78-83)
with its default coefficient 0.97: np.append(x[0], x[1:] - 0.97*x[:-1]).
The empty case is unreachable in the pipeline (duration is validated
first). -/
def applyPreemphasis (x : List ℚ) : List ℚ :=
  match x with
  | [] => []
  | h :: t => h :: List.zipWith (fun a b => a - 0.97 * b) t (h :: t)

/-- C8: pre-emphasis preserves length, keeps the first sample unchanged,
and every later sample is input[i] - 0.97 * input[i-1]. -/
theorem claim_C8_preemphasis (x : List ℚ) (i : ℕ) (hne : x ≠ []) :
    ((applyPreemphasis x).length = x.length
      ∧ (applyPreemphasis x).headI = x.headI)
    ∧ (1 ≤ i → i < x.length →
      (applyPreemphasis x).getD i 0 = x.getD i 0 - 0.97 * x.getD (i - 1) 0) := by
  match x with
  | [] => exact absurd rfl hne
  | h :: t =>
    refine ⟨⟨?_, rfl⟩, ?_⟩
    · simp [applyPreemphasis, List.length_zipWith]
    · intro h1 h2
      obtain ⟨j, rfl⟩ : ∃ j, i = j + 1 := ⟨i - 1, by omega⟩
      have hj : j < t.length := by
        simp only [List.length_cons] at h2
        omega
      have hj2 : j < (List.zipWith (fun a b => a - 0.97 * b) t (h :: t)).length := by
        simp [List.length_zipWith]
        omega
      show (List.zipWith (fun a b => a - 0.97 * b) t (h :: t)).getD j 0 = _
      rw [List.getD_eq_getElem _ _ hj2]
      rw [List.getElem_zipWith]
      have hgj : (h :: t).getD (j + 1) 0 = t.getD j 0 := rfl
      rw [hgj]
      have hjc : j < (h :: t).length := by simp; omega
      simp only [Nat.add_sub_cancel]
      rw [List.getD_eq_getElem _ _ hj, List.getD_eq_getElem _ _ hjc]

/-- Witness for C8 on the concrete signal [1, 2]: length and head are
preserved and the second output sample is 2 - 0.97 * 1. -/
theorem claim_C8_witness :
    ((applyPreemphasis [1, 2]).length = ([1, 2] : List ℚ).length
      ∧ (applyPreemphasis [1, 2]).headI = ([1, 2] : List ℚ).headI)
    ∧ (applyPreemphasis [1, 2]).getD 1 0
      = ([1, 2] : List ℚ).getD 1 0 - 0.97 * ([1, 2] : List ℚ).getD 0 0 := by
  have h := claim_C8_preemphasis [1, 2] 1 (by simp)
  exact ⟨h.1, h.2 (by norm_num) (by norm_num)⟩

/-- Duration failures raised inside AudioProcessor.process_audio
(audio_processor.py lines 42-46): the two ValueError raises guarding the
business duration limits; the spec taxonomy calls them DurationError. -/
inductive DurationError where
  | tooShort (duration : ℚ)
  | tooLong (duration : ℚ)
deriving DecidableEq

/-- The message text of the inner duration ValueError (the numeric
interpolation of the Python f-string is elided). -/
def DurationError.message : DurationError → String
  | .tooShort _ => "Audio too short"
  | .tooLong _ => "Audio too long"

/-- A decoded clip as pydub hands it to the rest of process_audio:
len(audio) in milliseconds and the PCM samples after the mono down-mix
and resampling steps (both performed by pydub itself). -/
structure DecodedAudio where
  lengthMs : ℕ
  samples : List ℤ
deriving DecidableEq

/-- The body of AudioProcessor.process_audio after a successful decode
(audio_processor.py lines 38-72): compute duration, validate it against
the 0.5 s and 300 s limits, scale int16 samples by 2^15, remove the DC
mean, apply pre-emphasis, and return (audio_data, 16000, duration). -/
def processDecoded (a : DecodedAudio) : Except DurationError (List ℚ × ℕ × ℚ) :=
  let duration : ℚ := (a.lengthMs : ℚ) / 1000
  if duration < 0.5 then Except.error (DurationError.tooShort duration)
  else if duration > 300 then Except.error (DurationError.tooLong duration)
  else
    let raw := a.samples.map (fun s => (s : ℚ) / 2 ^ 15)
    let centered := raw.map (fun v => v - listMeanQ raw)
    Except.ok (applyPreemphasis centered, 16000, duration)

/-- AudioProcessor.process_audio seen from its caller (audio_processor.py
lines 34-76): a failed pydub decode or any inner ValueError is caught by
the blanket except handler and re-raised as a single ValueError whose
message is prefixed with "Failed to process audio file: ".  The decode
step itself is external (pydub), so its outcome is the input here. -/
def processAudio (decoded : Except String DecodedAudio) :
    Except String (List ℚ × ℕ × ℚ) :=
  match decoded with
  | Except.error msg => Except.error ("Failed to process audio file: " ++ msg)
  | Except.ok a =>
    match processDecoded a with
    | Except.error e => Except.error ("Failed to process audio file: " ++ e.message)
    | Except.ok r => Except.ok r

/-- C5: process_audio rejects a decoded clip with a DurationError exactly
when the duration is below 0.5 s or above 300 s (producing no output to
extract features from), and every successful result carries sample rate
16000 and a duration inside [0.5, 300]. -/
theorem claim_C5_duration_validation (a : DecodedAudio) :
    ((a.lengthMs : ℚ) / 1000 < 0.5 →
      processDecoded a = Except.error (DurationError.tooShort ((a.lengthMs : ℚ) / 1000)))
    ∧ (0.5 ≤ (a.lengthMs : ℚ) / 1000 → 300 < (a.lengthMs : ℚ) / 1000 →
      processDecoded a = Except.error (DurationError.tooLong ((a.lengthMs : ℚ) / 1000)))
    ∧ (∀ samples rate duration,
      processDecoded a = Except.ok (samples, rate, duration) →
      rate = 16000 ∧ 0.5 ≤ duration ∧ duration ≤ 300) := by
  refine ⟨?_, ?_, ?_⟩
  · intro h
    unfold processDecoded
    rw [if_pos h]
  · intro h1 h2
    unfold processDecoded
    rw [if_neg (not_lt.mpr h1), if_pos h2]
  · intro samples rate duration hok
    simp only [processDecoded] at hok
    split_ifs at hok with h1 h2
    all_goals first
      | exact Except.noConfusion hok
      | (push_neg at h1 h2
         simp only [Except.ok.injEq, Prod.mk.injEq] at hok
         exact ⟨hok.2.1.symm, by rw [← hok.2.2]; exact h1,
           by rw [← hok.2.2]; exact h2⟩)

/-- Witness for C5: a 100 ms clip is rejected as too short, and a 1000 ms
empty clip is accepted with rate 16000 and duration 1 second. -/
theorem claim_C5_witness :
    processDecoded ⟨100, []⟩ = Except.error (DurationError.tooShort ((100 : ℚ) / 1000))
    ∧ (16000 = 16000 ∧ (0.5:ℚ) ≤ 1 ∧ (1:ℚ) ≤ 300) := by
  constructor
  · exact (claim_C5_duration_validation ⟨100, []⟩).1 (by norm_num)
  · refine (claim_C5_duration_validation ⟨1000, []⟩).2.2 [] 16000 1 ?_
    unfold processDecoded
    norm_num [applyPreemphasis, listMeanQ]

/-- C10: whichever step fails (a pydub decode failure or either duration
rejection), the exception reaching the caller of process_audio is the
single ValueError type carrying a message prefixed
"Failed to process audio file: ", so the failure modes are not
distinguishable by exception type. -/
theorem claim_C10_single_wrapped_error (decoded : Except String DecodedAudio)
    (s : String) (h : processAudio decoded = Except.error s) :
    ∃ rest, s = "Failed to process audio file: " ++ rest := by
  cases decoded with
  | error msg =>
    simp only [processAudio, Except.error.injEq] at h
    exact ⟨msg, h.symm⟩
  | ok a =>
    simp only [processAudio] at h
    cases hp : processDecoded a with
    | error e =>
      rw [hp] at h
      simp only [Except.error.injEq] at h
      exact ⟨e.message, h.symm⟩
    | ok r =>
      rw [hp] at h
      simp at h

/-- Witness for C10 at a concrete decode failure: the surfaced message is
the wrapped one. -/
theorem claim_C10_witness :
    ∃ rest, "Failed to process audio file: " ++ "bad mp3"
      = "Failed to process audio file: " ++ rest :=
  claim_C10_single_wrapped_error (Except.error "bad mp3")
    ("Failed to process audio file: " ++ "bad mp3") rfl

theorem list_sum_map_eq_finset_sum (f : ℝ → ℝ) (l : List ℝ) :
    (l.map f).sum = ∑ i in Finset.range l.length, f (l.getD i 0) := by
  induction l with
  | nil => simp
  | cons a t ih =>
    rw [List.map_cons, List.sum_cons, List.length_cons, Finset.sum_range_succ']
    simp only [List.getD_cons_succ, List.getD_cons_zero]
    rw [ih]
    ring

/-- Arithmetic mean over the reals, sum divided by length, as np.mean. -/
noncomputable def listMeanR (l : List ℝ) : ℝ := l.sum / l.length

/-- The k-th coefficient of the discrete Fourier transform computed by
scipy.fft.fft. -/
noncomputable def dftCoeff (x : List ℝ) (k : ℕ) : ℂ :=
  ∑ j in Finset.range x.length,
    (x.getD j 0 : ℂ) * Complex.exp (-2 * Real.pi * Complex.I * k * j / x.length)

/-- The positive-frequency magnitude spectrum: np.abs(fft(x)) truncated
to the first len//2 bins (voice_detector.py lines 126-127). -/
noncomputable def magnitudeSpectrum (x : List ℝ) : List ℝ :=
  (List.range (x.length / 2)).map (fun k => Complex.abs (dftCoeff x k))

/-- VoiceDetector._calculate_spectral_flatness (voice_detector.py lines
121-133): exp(mean(log(spectrum + 1e-10))) / (mean(spectrum) + 1e-10),
the epsilon 1e-10 written as 1 / 10 ^ 10. -/
noncomputable def spectralFlatness (x : List ℝ) : ℝ :=
  Real.exp (listMeanR ((magnitudeSpectrum x).map
      (fun v => Real.log (v + 1 / 10 ^ 10))))
    / (listMeanR (magnitudeSpectrum x) + 1 / 10 ^ 10)

theorem list_sum_eq_finset_sum (l : List ℝ) :
    l.sum = ∑ i in Finset.range l.length, l.getD i 0 := by
  have h := list_sum_map_eq_finset_sum id l
  simpa using h

theorem listMeanR_nonneg (l : List ℝ) (h : ∀ v ∈ l, 0 ≤ v) : 0 ≤ listMeanR l := by
  unfold listMeanR
  apply div_nonneg _ (Nat.cast_nonneg _)
  rw [list_sum_eq_finset_sum]
  apply Finset.sum_nonneg
  intro i hi
  apply h
  rw [List.getD_eq_getElem _ _ (Finset.mem_range.mp hi)]
  exact List.getElem_mem _

/-- Jensen / AM-GM for the code's geometric mean: the exponential of the
mean logarithm of a nonempty list of positive reals is at most its
arithmetic mean. -/
theorem exp_mean_log_le_mean (l : List ℝ) (hne : l ≠ []) (hpos : ∀ v ∈ l, 0 < v) :
    Real.exp (listMeanR (l.map Real.log)) ≤ listMeanR l := by
  have hn0 : 0 < l.length := List.length_pos.mpr hne
  have hn0R : (0:ℝ) < (l.length:ℝ) := by exact_mod_cast hn0
  have hget : ∀ i ∈ Finset.range l.length, 0 < l.getD i 0 := by
    intro i hi
    apply hpos
    rw [List.getD_eq_getElem _ _ (Finset.mem_range.mp hi)]
    exact List.getElem_mem _
  have hsum_pos : 0 < l.sum := by
    rw [list_sum_eq_finset_sum]
    exact Finset.sum_pos hget (Finset.nonempty_range_iff.mpr (by omega))
  have hA : 0 < listMeanR l := div_pos hsum_pos hn0R
  have hlm : listMeanR (l.map Real.log)
      = (∑ i in Finset.range l.length, Real.log (l.getD i 0)) / l.length := by
    rw [listMeanR, list_sum_map_eq_finset_sum Real.log l, List.length_map]
  rw [hlm, ← Real.le_log_iff_exp_le hA, div_le_iff₀ hn0R]
  have hpoint : ∀ i ∈ Finset.range l.length,
      Real.log (l.getD i 0) ≤ Real.log (listMeanR l) + (l.getD i 0 / listMeanR l - 1) := by
    intro i hi
    have hb := hget i hi
    have hlog := Real.log_le_sub_one_of_pos (div_pos hb hA)
    rw [Real.log_div (ne_of_gt hb) (ne_of_gt hA)] at hlog
    linarith
  have hsum_le := Finset.sum_le_sum hpoint
  have hrhs : ∑ i in Finset.range l.length,
      (Real.log (listMeanR l) + (l.getD i 0 / listMeanR l - 1))
      = (l.length : ℝ) * Real.log (listMeanR l)
        + (∑ i in Finset.range l.length, l.getD i 0) / listMeanR l - l.length := by
    rw [Finset.sum_add_distrib, Finset.sum_sub_distrib, Finset.sum_const,
      Finset.sum_const, Finset.card_range, Finset.sum_div]
    simp [nsmul_eq_mul]
    ring
  have hsb : (∑ i in Finset.range l.length, l.getD i 0) / listMeanR l = l.length := by
    rw [← list_sum_eq_finset_sum, listMeanR]
    rw [div_div_eq_mul_div, mul_comm, mul_div_assoc, div_self (ne_of_gt hsum_pos), mul_one]
  rw [hrhs, hsb] at hsum_le
  linarith

theorem listMeanR_map_add_const (l : List ℝ) (hne : l ≠ []) (c : ℝ) :
    listMeanR (l.map (fun v => v + c)) = listMeanR l + c := by
  have hn0 : 0 < l.length := List.length_pos.mpr hne
  have hn0R : (0:ℝ) < (l.length:ℝ) := by exact_mod_cast hn0
  rw [listMeanR, listMeanR, List.length_map,
    list_sum_map_eq_finset_sum (fun v => v + c) l,
    Finset.sum_add_distrib, Finset.sum_const, Finset.card_range,
    ← list_sum_eq_finset_sum, nsmul_eq_mul, add_div]
  congr 1
  rw [mul_comm]
  exact mul_div_cancel_right₀ c (ne_of_gt hn0R)

theorem flatness_bounds_aux (s : List ℝ) (hsne : s ≠ []) (hnn : ∀ v ∈ s, 0 ≤ v) :
    0 ≤ Real.exp (listMeanR (s.map (fun v => Real.log (v + 1 / 10 ^ 10))))
        / (listMeanR s + 1 / 10 ^ 10)
    ∧ Real.exp (listMeanR (s.map (fun v => Real.log (v + 1 / 10 ^ 10))))
        / (listMeanR s + 1 / 10 ^ 10) ≤ 1 := by
  have heps : (0:ℝ) < 1 / 10 ^ 10 := by norm_num
  have hbne : s.map (fun w => w + 1 / 10 ^ 10) ≠ [] := by
    simpa [List.map_eq_nil_iff] using hsne
  have hposb : ∀ v ∈ s.map (fun w => w + 1 / 10 ^ 10), 0 < v := by
    intro v hv
    obtain ⟨w, hw, rfl⟩ := List.mem_map.mp hv
    have := hnn w hw
    linarith
  have hkey := exp_mean_log_le_mean _ hbne hposb
  have hmm : (s.map (fun w => w + 1 / 10 ^ 10)).map Real.log
      = s.map (fun v => Real.log (v + 1 / 10 ^ 10)) := by
    rw [List.map_map]
    rfl
  have hmean : listMeanR (s.map (fun w => w + 1 / 10 ^ 10))
      = listMeanR s + 1 / 10 ^ 10 := listMeanR_map_add_const s hsne _
  rw [hmm, hmean] at hkey
  have hden : 0 < listMeanR s + 1 / 10 ^ 10 := by
    have h0 := listMeanR_nonneg s hnn
    linarith
  exact ⟨div_nonneg (Real.exp_pos _).le hden.le, (div_le_one hden).mpr hkey⟩

/-- C9 amended: for every input signal with at least two samples, the
spectral flatness lies in [0, 1] (a signal with fewer than two samples
has an empty positive-frequency spectrum and the value escapes [0, 1]). -/
theorem claim_C9_amended (x : List ℝ) (h2 : 2 ≤ x.length) :
    0 ≤ spectralFlatness x ∧ spectralFlatness x ≤ 1 := by
  have hsne : magnitudeSpectrum x ≠ [] := by
    apply List.length_pos.mp
    rw [magnitudeSpectrum, List.length_map, List.length_range]
    omega
  have hnn : ∀ v ∈ magnitudeSpectrum x, 0 ≤ v := by
    intro v hv
    rw [magnitudeSpectrum] at hv
    obtain ⟨k, _, rfl⟩ := List.mem_map.mp hv
    exact Complex.abs.nonneg _
  unfold spectralFlatness
  exact flatness_bounds_aux _ hsne hnn

/-- Witness for the amended C9 on the two-sample signal [1, 0]. -/
theorem claim_C9_witness :
    0 ≤ spectralFlatness [1, 0] ∧ spectralFlatness [1, 0] ≤ 1 :=
  claim_C9_amended [1, 0] (by simp)

/-- C9 is refuted for single-sample signals: [1] is nonempty, yet its
positive-frequency spectrum (the first 1//2 = 0 bins) is empty, np.mean
of an empty array is not a number, and the exact-arithmetic value of the
code formula is 10^10, far outside [0, 1]. -/
theorem claim_C9_counterexample :
    ([(1:ℝ)] ≠ []) ∧ 1 < spectralFlatness [1] := by
  refine ⟨by simp, ?_⟩
  have hms : magnitudeSpectrum [(1:ℝ)] = [] := by
    unfold magnitudeSpectrum
    simp
  unfold spectralFlatness
  rw [hms]
  simp only [List.map_nil]
  rw [show listMeanR [] = 0 from by simp [listMeanR]]
  rw [Real.exp_zero]
  norm_num
